import Mathlib

/-!
Shallow embedding of the Pyxelate cellular-automaton engine
(`pyxelate/universe.py` and the Life rule construction in `pyxelate/life.py`).

Cells are naturals (the code only ever stores 0 and 1).  numpy arrays of
rank 1 and 2 are embedded as `List Nat` and `List (List Nat)`; the code
only builds rectangular rank-2 arrays, so list-of-rows is adequate.
Python exceptions are modelled with `Except String` / `Option String`
(the string is the kind of exception raised).
-/

namespace Pyxelate

/-- A numpy array of the only two ranks the code supports. -/
inductive NDArray where
  | d1 (cells : List Nat)
  | d2 (rows : List (List Nat))
deriving DecidableEq

/-- `len(a.shape)` — the rank of the array. -/
def NDArray.rank : NDArray → Nat
  | d1 _ => 1
  | d2 _ => 2

/-- `a.shape[0]` — length of the first axis. -/
def NDArray.shape0 : NDArray → Nat
  | d1 cells => cells.length
  | d2 rows => rows.length

/-- `a.shape[1]` for a rank-2 array (rows are rectangular in numpy, so the
first row's length is the column count).  Only read on rank-2 arrays. -/
def NDArray.shape1 : NDArray → Nat
  | d1 _ => 0
  | d2 rows => (rows.headD []).length

/-- Projection used after `apply` has validated that the array is rank 1. -/
def NDArray.cells1 : NDArray → List Nat
  | d1 cells => cells
  | d2 _ => []

/-- Projection used after `apply` has validated that the array is rank 2. -/
def NDArray.rows2 : NDArray → List (List Nat)
  | d1 _ => []
  | d2 rows => rows

/-- `Size.__init__`: stores the given size; `None` means infinite. -/
structure Size where
  size : Option Nat
deriving DecidableEq

/-- `Size.is_infinite`. -/
def Size.isInf (s : Size) : Bool :=
  s.size.isNone

/-- What `Universe.__init__` stores in `self._size`: either a `Size` object
(size-based construction) or a bare int (`initial.shape[0]`, the
initial-state construction path). -/
inductive SizeField where
  | obj (s : Size)
  | raw (n : Nat)
deriving DecidableEq

/-- Reading `self._size.size` in `apply`: succeeds on a `Size` object,
raises `AttributeError` on the bare int stored by the initial-state
constructor. -/
def SizeField.sizeAttr : SizeField → Except String Nat
  | obj s =>
    match s.size with
    | some n => .ok n
    | none => .error "TypeError"
  | raw _ => .error "AttributeError"

/-- `Rule`: window pattern, anchor and outcome, as stored by
`Rule.__init__` after its validation. -/
structure Rule where
  window : NDArray
  center : List Nat
  becomes : Nat
deriving DecidableEq

/-- The `center` argument of `Rule.__init__`: a bare int or a tuple. -/
inductive CenterArg where
  | int (i : Nat)
  | tup (t : List Nat)

/-- Tuple view of the `center` argument (a bare int becomes a 1-tuple,
as in `Rule.__init__`). -/
def CenterArg.toTuple : CenterArg → List Nat
  | int i => [i]
  | tup t => t

/-- `Rule.__init__`: coerces an int center to a 1-tuple and rejects a
center whose arity differs from the window's rank.  No other check is
performed. -/
def mkRule (window : NDArray) (center : CenterArg) (becomes : Nat) : Except String Rule :=
  if center.toTuple.length ≠ window.rank then
    .error "Center must have the same dimensions as the window"
  else
    .ok ⟨window, center.toTuple, becomes⟩

/-- `Universe`: the fields `_dimensions`, `_size` and `_universe`. -/
structure Universe where
  dimensions : Nat
  size : SizeField
  univ : NDArray
deriving DecidableEq

/-- `Universe.__check_dimensions`. -/
def checkDimensions (dimensions : Nat) : Except String Unit :=
  if dimensions ≤ 0 then .error "Universes must have at least one dimension"
  else if dimensions > 2 then .error "Higher than two-dimensional universe not supported"
  else .ok ()

/-- `Universe.__check_initial`: the rank must equal `dimensions`; then the
size check evaluates `np.all(initial.shape == size)` where `initial.shape`
is a Python tuple and `size = initial.shape[0]` a plain int.  A tuple never
equals an int, so the comparison is `False` for every array, `np.all(False)`
is falsy, and the check raises unconditionally — regardless of the array's
contents or squareness. -/
def checkInitial (initial : NDArray) (dimensions : Nat) : Except String Unit :=
  if initial.rank ≠ dimensions then
    .error "Initial universe must have the same number of dimensions provided"
  else
    .error "Initial universe must have the same size across all dimensions"

/-- `Universe.__init__`.  Exactly one of `size` and `initial` must be
given; the size path stores the `Size` object and a zero-filled array,
the initial path would store the bare int `initial.shape[0]` and a copy of
the array — but `checkInitial` always errors, so that branch's `.ok` is
unreachable.  `checkDimensions` has already forced `dimensions ∈ {1, 2}`
when the allocation branch is reached. -/
def mkUniverse (dimensions : Nat) (size : Option Size) (initial : Option NDArray) : Except String Universe :=
  match checkDimensions dimensions with
  | .error e => .error e
  | .ok _ =>
    match size, initial with
    | none, none => .error "Exactly one of size or initial must be provided"
    | some _, some _ => .error "Exactly one of size or initial must be provided"
    | some s, none =>
      if s.isInf then .error "Infinite universes not yet supported"
      else
        let n := s.size.getD 0
        if dimensions = 1 then
          .ok ⟨dimensions, .obj s, .d1 (List.replicate n 0)⟩
        else
          .ok ⟨dimensions, .obj s, .d2 (List.replicate n (List.replicate n 0))⟩
    | none, some ini =>
      match checkInitial ini dimensions with
      | .error e => .error e
      | .ok _ => .ok ⟨dimensions, .raw ini.shape0, ini⟩

/-- A single location passed to `transform`: a bare int or a tuple of
ints.  Python ints may be negative, so coordinates are `Int`. -/
inductive Loc where
  | int (i : Int)
  | tup (t : List Int)
deriving DecidableEq

/-- The `location` argument of `transform`: one location or an iterable
of locations. -/
inductive LocArg where
  | single (l : Loc)
  | iter (ls : List Loc)

/-- Tuple view of a location (`transform` turns a bare int into a
1-tuple). -/
def Loc.toTuple : Loc → List Int
  | int i => [i]
  | tup t => t

/-- numpy basic indexing along one axis of length `len`: indices in
`[0, len)` are used as is, indices in `[-len, 0)` wrap from the end, and
anything else raises `IndexError`. -/
def npIndex (len : Nat) (i : Int) : Except String Nat :=
  if 0 ≤ i ∧ i < (len : Int) then .ok i.toNat
  else if -(len : Int) ≤ i ∧ i < 0 then .ok ((len : Int) + i).toNat
  else .error "IndexError"

/-- `self._universe[loc] = state` for a tuple `loc` of ints whose arity
equals the array's rank (the arity was checked against `_dimensions`
before the assignment, and `_dimensions` equals the rank for every
constructed universe). -/
def NDArray.npSet : NDArray → List Int → Nat → Except String NDArray
  | .d1 cells, [i], v =>
    (match npIndex cells.length i with
    | .error e => .error e
    | .ok k => .ok (.d1 (cells.set k v)))
  | .d2 rows, [i, j], v =>
    (match npIndex rows.length i with
    | .error e => .error e
    | .ok r =>
      match npIndex (rows.getD r []).length j with
      | .error e => .error e
      | .ok c => .ok (.d2 (rows.set r ((rows.getD r []).set c v))))
  | _, _, _ => .error "IndexError"

/-- One location of `transform`: the arity check against `_dimensions`
(raising `ValueError`) followed by the numpy assignment. -/
def Universe.transformLoc (u : Universe) (l : Loc) (state : Nat) : Except String Universe :=
  if l.toTuple.length ≠ u.dimensions then
    .error "Location must have the same number of dimensions as the universe"
  else
    match u.univ.npSet l.toTuple state with
    | .error e => .error e
    | .ok arr => .ok { u with univ := arr }

/-- The iterable branch of `transform`: locations are processed in order
and an exception aborts the loop, keeping every mutation already made. -/
def Universe.transformGo : Universe → List Loc → Nat → Universe × Option String
  | u, [], _ => (u, none)
  | u, l :: rest, state =>
    match u.transformLoc l state with
    | .ok u2 => u2.transformGo rest state
    | .error e => (u, some e)

/-- `Universe.transform`: returns the (possibly partially) mutated
universe together with the exception raised, if any. -/
def Universe.transform (u : Universe) (l : LocArg) (state : Nat) : Universe × Option String :=
  match l with
  | .single loc =>
    match u.transformLoc loc state with
    | .ok u2 => (u2, none)
    | .error e => (u, some e)
  | .iter locs => u.transformGo locs state

/-- `np.pad(cells, padding)`: a dead border of width `p` on both sides. -/
def pad1 (cells : List Nat) (p : Nat) : List Nat :=
  List.replicate p 0 ++ cells ++ List.replicate p 0

/-- `np.pad(rows, ((vp, vp), (hp, hp)))`: dead rows above and below, a
dead border of width `hp` on each side of every row. -/
def pad2 (rows : List (List Nat)) (vp hp : Nat) : List (List Nat) :=
  let w := (rows.headD []).length + 2 * hp
  List.replicate vp (List.replicate w 0)
    ++ rows.map (fun r => List.replicate hp 0 ++ r ++ List.replicate hp 0)
    ++ List.replicate vp (List.replicate w 0)

/-- The slice `l[start : start + len]` (the code only forms slices whose
start is nonnegative: the anchor indexes into the window, so
`index - center ≥ padding - center > 0`). -/
def slice1 (l : List Nat) (start len : Nat) : List Nat :=
  (l.drop start).take len

/-- `np.all(old[index-c : index-c+len(w)] == rule.window)` in the 1-D
branch of `apply`. -/
def Rule.matchAt1 (r : Rule) (old : List Nat) (index : Nat) : Bool :=
  let c := r.center.headD 0
  let w := r.window.cells1
  slice1 old (index - c) w.length == w

/-- The rank-2 window slice comparison in the 2-D branch of `apply`. -/
def Rule.matchAt2 (r : Rule) (old : List (List Nat)) (ri ci : Nat) : Bool :=
  let vc := r.center.headD 0
  let hc := (r.center.drop 1).headD 0
  let w := r.window.rows2
  ((old.drop (ri - vc)).take w.length).map
      (fun row => slice1 row (ci - hc) (w.headD []).length)
    == w

/-- The inner rule loop of the 1-D branch: first match wins (the branch
has a `break`), `none` when no rule matches. -/
def scanRules1 (old : List Nat) (index : Nat) : List Rule → Option Nat
  | [] => none
  | r :: rs => if r.matchAt1 old index then some r.becomes else scanRules1 old index rs

/-- The 1-D evolution loop: the new buffer starts as a copy of the old
cells and each position in `range(padding, n + padding)` is overwritten
with the first matching rule's outcome. -/
def apply1 (cells : List Nat) (rules : List Rule) (n p : Nat) : List Nat :=
  let old := pad1 cells p
  (List.range n).map fun i =>
    match scanRules1 old (i + p) rules with
    | some v => v
    | none => cells.getD i 0

/-- The inner rule loop of the 2-D branch: the source has no `break`, so
every matching rule overwrites the cell in turn and the LAST match wins;
`none` when no rule matches. -/
def lastMatch2 (old : List (List Nat)) (ri ci : Nat) (rules : List Rule) : Option Nat :=
  rules.foldl (fun acc r => if r.matchAt2 old ri ci then some r.becomes else acc) none

/-- `new_universe[i, j] = v` with numpy's bounds check (the 2-D loop can
aim past the buffer when the paddings differ, which raises
`IndexError`). -/
def writeCell (g : List (List Nat)) (i j v : Nat) : Except String (List (List Nat)) :=
  if i < g.length ∧ j < (g.getD i []).length then
    .ok (g.set i ((g.getD i []).set j v))
  else
    .error "IndexError"

/-- The positions `(row_index, col_index)` visited by the 2-D loops, in
order: rows in `range(vertical_padding, size + vertical_padding)` and —
as written in the source — columns in
`range(horizontal_padding, size + vertical_padding)`. -/
def positions2 (vp hp n : Nat) : List (Nat × Nat) :=
  (List.range' vp n).flatMap fun ri => (List.range' hp (n + vp - hp)).map fun ci => (ri, ci)

/-- One visited position of the 2-D loop: if any rule matches, the cell
`(ri - vp, ci - hp)` of the new buffer ends at the last matching rule's
outcome (the first matching write already raises `IndexError` when the
target lies outside the buffer). -/
def apply2Cell (old : List (List Nat)) (rules : List Rule) (vp hp : Nat)
    (acc : List (List Nat)) (ri ci : Nat) : Except String (List (List Nat)) :=
  match lastMatch2 old ri ci rules with
  | none => .ok acc
  | some v => writeCell acc (ri - vp) (ci - hp) v

/-- The 2-D evolution loop over the visited positions. -/
def apply2Go (old : List (List Nat)) (rules : List Rule) (vp hp : Nat) :
    List (Nat × Nat) → List (List Nat) → Except String (List (List Nat))
  | [], acc => .ok acc
  | (ri, ci) :: ps, acc =>
    match apply2Cell old rules vp hp acc ri ci with
    | .ok acc2 => apply2Go old rules vp hp ps acc2
    | .error e => .error e

/-- `max(rule.window.shape[0] for rule in rules)`: `ValueError` on an
empty rule list, as in Python. -/
def maxShape0 (rules : List Rule) : Except String Nat :=
  match rules with
  | [] => .error "max() arg is an empty sequence"
  | r :: rs => .ok (rs.foldl (fun m q => max m q.window.shape0) r.window.shape0)

/-- `max(rule.window.shape[1] for rule in rules)`. -/
def maxShape1 (rules : List Rule) : Except String Nat :=
  match rules with
  | [] => .error "max() arg is an empty sequence"
  | r :: rs => .ok (rs.foldl (fun m q => max m q.window.shape1) r.window.shape1)

/-- `Universe.apply` up to the final in-place replacement: validates the
rules' ranks, computes the paddings, pads the old cells, reads
`self._size.size` and runs the per-dimension loop, producing the new
cell array or the exception raised. -/
def Universe.applyE (u : Universe) (rules : List Rule) : Except String NDArray :=
  if ¬ (rules.all fun r => r.window.rank == u.dimensions) then
    .error "Rules must match the dimensions"
  else if u.dimensions = 1 then
    match maxShape0 rules with
    | .error e => .error e
    | .ok p =>
      match u.size.sizeAttr with
      | .error e => .error e
      | .ok n => .ok (.d1 (apply1 u.univ.cells1 rules n p))
  else
    match maxShape0 rules with
    | .error e => .error e
    | .ok vp =>
      match maxShape1 rules with
      | .error e => .error e
      | .ok hp =>
        match u.size.sizeAttr with
        | .error e => .error e
        | .ok n =>
          match apply2Go (pad2 u.univ.rows2 vp hp) rules vp hp
              (positions2 vp hp n) u.univ.rows2 with
          | .error e => .error e
          | .ok res => .ok (.d2 res)

/-- `Universe.apply` as a state transition: on success the cell array is
replaced wholesale, on an exception the universe is left untouched
(every intermediate buffer is a copy and `self._universe` is only
reassigned on the last line). -/
def Universe.applyM (u : Universe) (rules : List Rule) : Universe × Option String :=
  match u.applyE rules with
  | .ok arr => ({ u with univ := arr }, none)
  | .error e => (u, some e)

/-- `Simulator.step(k)`: `apply` run `k` times; an exception aborts the
loop. -/
def stepN (u : Universe) (rules : List Rule) : Nat → Universe × Option String
  | 0 => (u, none)
  | k + 1 =>
    match u.applyM rules with
    | (u2, none) => stepN u2 rules k
    | (u2, some e) => (u2, some e)

/-- Python's `sep.join(parts)`: the parts interleaved with the separator
and concatenated. -/
def pyJoin (sep : String) (parts : List String) : String :=
  String.join (parts.intersperse sep)

/-- `Universe.__repr__`: 1-D is the digit concatenation of the cells,
2-D is one such line per row, newline-joined. -/
def Universe.render (u : Universe) : String :=
  if u.dimensions = 1 then
    String.join (u.univ.cells1.map (fun c => toString c))
  else
    pyJoin "\n" (u.univ.rows2.map (fun row => String.join (row.map (fun c => toString c))))

/-- `itertools.combinations(s, r)` for a list of naturals, in the same
(lexicographic-by-position) order Python produces. -/
def combinations : Nat → List Nat → List (List Nat)
  | 0, _ => [[]]
  | _ + 1, [] => []
  | r + 1, x :: xs => (combinations r xs).map (fun c => x :: c) ++ combinations (r + 1) xs

/-- The `powerset` helper of `life.py`: all subsets of `range(9)` in
order of increasing size. -/
def powerset9 : List (List Nat) :=
  (List.range 10).flatMap fun r => combinations r (List.range 9)

/-- `np.zeros(9)` with ones at the subset's indices, reshaped `(3, 3)`
row-major. -/
def stateOf (subset : List Nat) : List (List Nat) :=
  let flat := (List.range 9).map fun i => if i ∈ subset then 1 else 0
  [flat.take 3, (flat.drop 3).take 3, flat.drop 6]

/-- Sum of all entries of a rank-2 state (the `np.sum(state)` of
`life.py`). -/
def sumGrid (rows : List (List Nat)) : Nat :=
  (rows.map (fun r => r.foldl (fun a b => a + b) 0)).foldl (fun a b => a + b) 0

/-- `get_life_rule_list`: for every 3×3 neighborhood, a rule anchored at
`(1, 1)` — death below two or above three live neighbours, birth at
exactly three; all other neighborhoods get no rule. -/
def lifeRules : List Rule :=
  powerset9.filterMap fun subset =>
    let state := stateOf subset
    let isAlive := (state.getD 1 []).getD 1 0 == 1
    let numAliveNeighbours := sumGrid state - (if isAlive then 1 else 0)
    if isAlive ∧ numAliveNeighbours < 2 then
      some ⟨.d2 state, [1, 1], 0⟩
    else if isAlive ∧ numAliveNeighbours > 3 then
      some ⟨.d2 state, [1, 1], 0⟩
    else if ¬ isAlive ∧ numAliveNeighbours = 3 then
      some ⟨.d2 state, [1, 1], 1⟩
    else
      none

/-- The glider seed of `life_sim`. -/
def gliderLocs : List Loc :=
  [.tup [2, 1], .tup [3, 2], .tup [1, 3], .tup [2, 3], .tup [3, 3]]

/-- An `n × n` grid whose live cells are exactly the given positions. -/
def gridWithLive (n : Nat) (live : List (Nat × Nat)) : List (List Nat) :=
  (List.range n).map fun r => (List.range n).map fun c => if (r, c) ∈ live then 1 else 0

/-- Fallback universe for extracting the `ok` value of a construction
that is separately proved to succeed. -/
def noU : Universe :=
  ⟨0, .raw 0, .d1 []⟩

/-- The `life_sim` universe right after construction:
`Universe(dimensions=2, size=Size(20))`. -/
def lifeBase : Universe :=
  (mkUniverse 2 (some ⟨some 20⟩) none).toOption.getD noU

/-- The `life_sim` universe after seeding the glider. -/
def lifeSeeded : Universe × Option String :=
  lifeBase.transform (.iter gliderLocs) 1

/-- The seeded universe advanced four generations. -/
def lifeAfter4 : Universe × Option String :=
  stepN lifeSeeded.1 lifeRules 4

/-! Analysis-side definitions used to settle the Life scenario: every
Life rule has the same 3×3 window shape anchored at `(1, 1)`, so the
rule scan at a cell depends only on the 3×3 neighborhood slice; that
slice lookup is computed by a small neighbor-count function.  These are
proved equivalent to the embedded engine below — they are not part of
the embedding itself. -/

/-- The 3×3 neighborhood slice all Life rules compare against. -/
def extract3 (old : List (List Nat)) (ri ci : Nat) : List (List Nat) :=
  ((old.drop (ri - 1)).take 3).map fun row => slice1 row (ci - 1) 3

/-- The Life rule scan as a function of the neighborhood slice alone. -/
def lifeLook (m : List (List Nat)) : Option Nat :=
  lifeRules.foldl (fun acc r => if m == r.window.rows2 then some r.becomes else acc) none

/-- Conway outcome of a 3×3 neighborhood, written exactly like the rule
generation conditions of `get_life_rule_list`. -/
def lifeOutcome (m : List (List Nat)) : Option Nat :=
  let isAlive := (m.getD 1 []).getD 1 0 == 1
  let nn := sumGrid m - (if isAlive then 1 else 0)
  if isAlive ∧ nn < 2 then some 0
  else if isAlive ∧ nn > 3 then some 0
  else if ¬ isAlive ∧ nn = 3 then some 1
  else none

/-- One Life generation computed per cell by `lifeOutcome`. -/
def fastLifeStep (rows : List (List Nat)) (n : Nat) : List (List Nat) :=
  (List.range n).map fun i => (List.range n).map fun j =>
    match lifeOutcome (extract3 (pad2 rows 3 3) (3 + i) (3 + j)) with
    | some v => v
    | none => (rows.getD i []).getD j 0

/-- Entry `i` (row-major) of a 3×3 neighborhood. -/
def entryAt (m : List (List Nat)) (i : Nat) : Nat :=
  (m.getD (i / 3) []).getD (i % 3) 0

/-- The set of live positions of a 3×3 neighborhood, as the sorted
subset of `range 9` the `powerset` enumeration produces it from. -/
def ones (m : List (List Nat)) : List Nat :=
  (List.range 9).filter fun i => entryAt m i == 1

/-- An `n × n` grid of zeros and ones. -/
def sq01 (g : List (List Nat)) (n : Nat) : Prop :=
  g.length = n ∧ ∀ r ∈ g, r.length = n ∧ ∀ x ∈ r, x = 0 ∨ x = 1

instance (g : List (List Nat)) (n : Nat) : Decidable (sq01 g n) := by
  unfold sq01
  infer_instance

/-! ### Generic list helpers -/

theorem getD_set_self (l : List Nat) (i v d : Nat) (h : i < l.length) :
    (l.set i v).getD i d = v := by
  rw [List.getD_eq_getElem _ _ (by simpa using h)]
  exact List.getElem_set_self _

theorem getD_set_ne (l : List Nat) (i j v d : Nat) (h : i ≠ j) :
    (l.set i v).getD j d = l.getD j d := by
  unfold List.getD
  rw [List.get?_eq_getElem?, List.get?_eq_getElem?, List.getElem?_set_ne h]

theorem getD_set_self2 (l : List (List Nat)) (i : Nat) (v : List Nat) (d : List Nat)
    (h : i < l.length) : (l.set i v).getD i d = v := by
  rw [List.getD_eq_getElem _ _ (by simpa using h)]
  exact List.getElem_set_self _

theorem getD_set_ne2 (l : List (List Nat)) (i j : Nat) (v d : List Nat) (h : i ≠ j) :
    (l.set i v).getD j d = l.getD j d := by
  unfold List.getD
  rw [List.get?_eq_getElem?, List.get?_eq_getElem?, List.getElem?_set_ne h]

theorem getD_replicate (n k a d : Nat) :
    (List.replicate n a).getD k d = if k < n then a else d := by
  induction n generalizing k with
  | zero => simp [List.getD]
  | succ m ih =>
    cases k with
    | zero => simp [List.replicate_succ, List.getD]
    | succ k2 =>
      simp only [List.replicate_succ, List.getD_cons_succ, ih, Nat.add_lt_add_iff_right]

theorem getD_replicate2 (n k : Nat) (a d : List Nat) :
    (List.replicate n a).getD k d = if k < n then a else d := by
  induction n generalizing k with
  | zero => simp [List.getD]
  | succ m ih =>
    cases k with
    | zero => simp [List.replicate_succ, List.getD]
    | succ k2 =>
      simp only [List.replicate_succ, List.getD_cons_succ, ih, Nat.add_lt_add_iff_right]

theorem getD_map_list (f : List Nat → List Nat) (l : List (List Nat)) (k : Nat)
    (d : List Nat) (h : k < l.length) : (l.map f).getD k d = f (l.getD k d) := by
  rw [List.getD_eq_getElem _ _ (by simpa using h), List.getD_eq_getElem _ _ h]
  simp

theorem getD_mem (l : List Nat) (k d : Nat) (h : k < l.length) : l.getD k d ∈ l := by
  rw [List.getD_eq_getElem _ _ h]
  exact List.getElem_mem h

theorem getD_mem2 (l : List (List Nat)) (k : Nat) (d : List Nat) (h : k < l.length) :
    l.getD k d ∈ l := by
  rw [List.getD_eq_getElem _ _ h]
  exact List.getElem_mem h

theorem set_getD_self (l : List Nat) (i d : Nat) : l.set i (l.getD i d) = l ∨ i ≥ l.length := by
  by_cases h : i < l.length
  · left
    apply List.ext_getElem (by simp)
    intro k h1 h2
    by_cases hk : i = k
    · subst hk
      rw [List.getElem_set_self _, List.getD_eq_getElem _ _ h]
    · rw [List.getElem_set_ne hk]
  · right
    omega

theorem set_getD_eta (l : List (List Nat)) (i : Nat) (d : List Nat) (h : i < l.length) :
    l.set i (l.getD i d) = l := by
  apply List.ext_getElem (by simp)
  intro k h1 h2
  by_cases hk : i = k
  · subst hk
    rw [List.getElem_set_self _, List.getD_eq_getElem _ _ h]
  · rw [List.getElem_set_ne hk]

theorem map_range_eta (l : List (List Nat)) (d : List Nat) :
    (List.range l.length).map (fun i => l.getD i d) = l := by
  apply List.ext_getElem (by simp)
  intro k h1 h2
  rw [List.getElem_map, List.getElem_range, List.getD_eq_getElem _ _ h2]

/-! ### The padded snapshot is the zero-extension of the grid -/

theorem pad1_getD (g : List Nat) (p k : Nat) :
    (pad1 g p).getD k 0 = if p ≤ k ∧ k < p + g.length then g.getD (k - p) 0 else 0 := by
  unfold pad1
  rw [List.append_assoc]
  by_cases h1 : k < p
  · rw [List.getD_append _ _ _ _ (by simpa using h1), getD_replicate]
    have h2 : ¬(p ≤ k ∧ k < p + g.length) := by omega
    simp [h1, h2]
  · rw [List.getD_append_right _ _ _ _ (by simpa using h1)]
    simp only [List.length_replicate]
    by_cases h2 : k - p < g.length
    · rw [List.getD_append _ _ _ _ h2]
      have : p ≤ k ∧ k < p + g.length := by omega
      simp [this]
    · rw [List.getD_append_right _ _ _ _ (by omega), getD_replicate]
      have : ¬(p ≤ k ∧ k < p + g.length) := by omega
      simp [this]

theorem pad2_row (rows : List (List Nat)) (vp hp i : Nat) :
    (pad2 rows vp hp).getD i [] =
      if vp ≤ i ∧ i < vp + rows.length then
        pad1 (rows.getD (i - vp) []) hp
      else if i < 2 * vp + rows.length then
        List.replicate ((rows.headD []).length + 2 * hp) 0
      else [] := by
  unfold pad2
  rw [List.append_assoc]
  by_cases h1 : i < vp
  · rw [List.getD_append _ _ _ _ (by simpa using h1), getD_replicate2]
    have h2 : ¬(vp ≤ i ∧ i < vp + rows.length) := by omega
    have h3 : i < 2 * vp + rows.length := by omega
    simp [h1, h2, h3]
  · rw [List.getD_append_right _ _ _ _ (by simpa using h1)]
    simp only [List.length_replicate]
    by_cases h2 : i - vp < rows.length
    · rw [List.getD_append _ _ _ _ (by simpa using h2),
        getD_map_list _ _ _ _ h2]
      have h3 : vp ≤ i ∧ i < vp + rows.length := by omega
      simp only [h3, and_self, if_true]
      rfl
    · rw [List.getD_append_right _ _ _ _ (by simpa using h2), getD_replicate2]
      simp only [List.length_map]
      have h3 : ¬(vp ≤ i ∧ i < vp + rows.length) := by omega
      by_cases h4 : i < 2 * vp + rows.length
      · have h5 : i - vp - rows.length < vp := by omega
        simp [h3, h4, h5]
      · have h5 : ¬(i - vp - rows.length < vp) := by omega
        simp [h3, h4, h5]

theorem pad2_getD (rows : List (List Nat)) (m vp hp i j : Nat)
    (hrect : ∀ r ∈ rows, r.length = m) :
    ((pad2 rows vp hp).getD i []).getD j 0 =
      if vp ≤ i ∧ i < vp + rows.length ∧ hp ≤ j ∧ j < hp + m then
        (rows.getD (i - vp) []).getD (j - hp) 0
      else 0 := by
  rw [pad2_row]
  by_cases h1 : vp ≤ i ∧ i < vp + rows.length
  · simp only [h1, and_self, if_true, pad1_getD]
    have hlen : (rows.getD (i - vp) []).length = m := by
      exact hrect _ (getD_mem2 rows (i - vp) [] (by omega))
    rw [hlen]
    by_cases h2 : hp ≤ j ∧ j < hp + m
    · simp [h1, h2]
    · have h3 : ¬(vp ≤ i ∧ i < vp + rows.length ∧ hp ≤ j ∧ j < hp + m) := by tauto
      simp [h2, h3]
  · simp only [h1, if_false]
    have h3 : ¬(vp ≤ i ∧ i < vp + rows.length ∧ hp ≤ j ∧ j < hp + m) := by tauto
    by_cases h4 : i < 2 * vp + rows.length
    · simp only [h4, if_true, getD_replicate, h3, if_false]
      split
      · rfl
      · rfl
    · simp [h4, h3, List.getD]

/-! ### The 2-D write loop -/

theorem apply2Go_append (old : List (List Nat)) (rules : List Rule) (vp hp : Nat)
    (ps qs : List (Nat × Nat)) (acc : List (List Nat)) :
    apply2Go old rules vp hp (ps ++ qs) acc =
      match apply2Go old rules vp hp ps acc with
      | .ok a2 => apply2Go old rules vp hp qs a2
      | .error e => .error e := by
  induction ps generalizing acc with
  | nil => simp [apply2Go]
  | cons p ps ih =>
    obtain ⟨ri, ci⟩ := p
    simp only [List.cons_append, apply2Go]
    cases apply2Cell old rules vp hp acc ri ci with
    | ok acc2 => exact ih acc2
    | error e => rfl

/-- A cell that no visited position writes (because no rule matches at
the one position aimed at it) keeps the value the new buffer started
with. -/
theorem apply2Go_not_written (old : List (List Nat)) (rules : List Rule) (vp hp : Nat)
    (ps : List (Nat × Nat)) (acc res : List (List Nat)) (i j : Nat)
    (hok : apply2Go old rules vp hp ps acc = .ok res)
    (hnw : ∀ ri ci, (ri, ci) ∈ ps → ri - vp = i → ci - hp = j →
      lastMatch2 old ri ci rules = none) :
    (res.getD i []).getD j 0 = (acc.getD i []).getD j 0 := by
  induction ps generalizing acc with
  | nil =>
    simp only [apply2Go] at hok
    cases hok
    rfl
  | cons p ps ih =>
    obtain ⟨ri, ci⟩ := p
    simp only [apply2Go, apply2Cell] at hok
    cases hm : lastMatch2 old ri ci rules with
    | none =>
      rw [hm] at hok
      exact ih acc hok (fun a b hab => hnw a b (List.mem_cons_of_mem _ hab))
    | some v =>
      rw [hm] at hok
      unfold writeCell at hok
      dsimp only at hok
      by_cases hb : ri - vp < acc.length ∧ ci - hp < (acc.getD (ri - vp) []).length
      · rw [if_pos hb] at hok
        have htgt : ¬(ri - vp = i ∧ ci - hp = j) := by
          intro ⟨h1, h2⟩
          have := hnw ri ci (List.mem_cons_self _ _) h1 h2
          rw [this] at hm
          cases hm
        have hcell :
            (((acc.set (ri - vp) ((acc.getD (ri - vp) []).set (ci - hp) v)).getD i []).getD j 0)
              = (acc.getD i []).getD j 0 := by
          by_cases hrow : ri - vp = i
          · have hcol : ci - hp ≠ j := fun hc => htgt ⟨hrow, hc⟩
            rw [hrow]
            rw [getD_set_self2 _ _ _ _ (hrow ▸ hb.1)]
            rw [hrow] at hb
            exact getD_set_ne _ _ _ _ _ hcol
          · rw [getD_set_ne2 _ _ _ _ _ hrow]
        rw [← hcell]
        exact ih _ hok (fun a b hab => hnw a b (List.mem_cons_of_mem _ hab))
      · rw [if_neg hb] at hok
        cases hok

theorem rowFold_length (old : List (List Nat)) (rules : List Rule) (ri hp : Nat)
    (js : List Nat) (row : List Nat) :
    (js.foldl (fun r ci =>
      match lastMatch2 old ri ci rules with
      | some v => r.set (ci - hp) v
      | none => r) row).length = row.length := by
  induction js generalizing row with
  | nil => rfl
  | cons c cs ih =>
    simp only [List.foldl_cons]
    cases lastMatch2 old ri c rules with
    | none => exact ih row
    | some v =>
      rw [ih]
      exact List.length_set ..

/-- Processing the positions of one row rewrites exactly the row
`ri - vp` of the buffer, by the column fold. -/
theorem apply2Go_row (old : List (List Nat)) (rules : List Rule) (vp hp ri : Nat)
    (js : List Nat) (acc : List (List Nat)) (i : Nat) (hi : ri - vp = i)
    (hil : i < acc.length) (hbound : ∀ ci ∈ js, ci - hp < (acc.getD i []).length) :
    apply2Go old rules vp hp (js.map fun ci => (ri, ci)) acc =
      .ok (acc.set i (js.foldl (fun r ci =>
        match lastMatch2 old ri ci rules with
        | some v => r.set (ci - hp) v
        | none => r) (acc.getD i []))) := by
  induction js generalizing acc with
  | nil =>
    simp only [List.map_nil, apply2Go, List.foldl_nil]
    rw [set_getD_eta _ _ _ hil]
  | cons c cs ih =>
    simp only [List.map_cons, apply2Go, apply2Cell, List.foldl_cons]
    cases hm : lastMatch2 old ri c rules with
    | none =>
      exact ih acc hil (fun x hx => hbound x (List.mem_cons_of_mem _ hx))
    | some v =>
      unfold writeCell
      rw [hi]
      dsimp only
      have hc : c - hp < (acc.getD i []).length := hbound c (List.mem_cons_self _ _)
      rw [if_pos ⟨hil, hc⟩]
      dsimp only
      have hlen2 : i < (acc.set i ((acc.getD i []).set (c - hp) v)).length := by
        simpa using hil
      have hrow2 : (acc.set i ((acc.getD i []).set (c - hp) v)).getD i []
          = (acc.getD i []).set (c - hp) v := getD_set_self2 _ _ _ _ hil
      rw [ih _ hlen2 (by
        intro x hx
        rw [hrow2, List.length_set]
        exact hbound x (List.mem_cons_of_mem _ hx))]
      rw [hrow2, List.set_set]

theorem rowFold_getD (old : List (List Nat)) (rules : List Rule) (ri hp : Nat)
    (n : Nat) (row : List Nat) (j : Nat) (hj : j < row.length) :
    ((List.range' hp n).foldl (fun r ci =>
      match lastMatch2 old ri ci rules with
      | some v => r.set (ci - hp) v
      | none => r) row).getD j 0 =
      if j < n then
        match lastMatch2 old ri (hp + j) rules with
        | some v => v
        | none => row.getD j 0
      else row.getD j 0 := by
  induction n with
  | zero => simp
  | succ m ih =>
    have hc : List.range' hp (m + 1) = List.range' hp m ++ [hp + m] := by
      exact List.range'_1_concat hp m
    rw [hc, List.foldl_append]
    simp only [List.foldl_cons, List.foldl_nil]
    cases hm : lastMatch2 old ri (hp + m) rules with
    | none =>
      rw [ih]
      by_cases h1 : j < m
      · simp [h1, (show j < m + 1 by omega)]
      · by_cases h2 : j < m + 1
        · have : j = m := by omega
          subst this
          simp [h1, h2, hm]
        · simp [h1, h2]
    | some v =>
      have hset : hp + m - hp = m := by omega
      rw [hset]
      by_cases h1 : j = m
      · subst h1
        rw [getD_set_self _ _ _ _ (by rw [rowFold_length]; exact hj)]
        simp [hm]
      · rw [getD_set_ne _ _ _ _ _ (fun hh => h1 hh.symm), ih]
        by_cases h2 : j < m
        · simp [h2, (show j < m + 1 by omega)]
        · have h3 : ¬ j < m + 1 := by omega
          simp [h2, h3]

theorem getD_map_range2 (f : Nat → List Nat) (n k : Nat) (h : k < n) :
    ((List.range n).map f).getD k [] = f k := by
  rw [List.getD_eq_getElem _ _ (by simpa using h)]
  simp

theorem getD_map_range_nat (f : Nat → Nat) (n k : Nat) (h : k < n) :
    ((List.range n).map f).getD k 0 = f k := by
  rw [List.getD_eq_getElem _ _ (by simpa using h)]
  simp

/-- When both paddings are equal the 2-D loop visits the full `n × n`
grid and the write fold is the pointwise new-generation map. -/
theorem apply2Go_grid (old : List (List Nat)) (rules : List Rule) (vp n : Nat)
    (m : Nat) (hm : m ≤ n) (acc : List (List Nat)) (hlen : acc.length = n)
    (hrows : ∀ r ∈ acc, r.length = n) :
    apply2Go old rules vp vp
        ((List.range' vp m).flatMap fun ri => (List.range' vp n).map fun ci => (ri, ci)) acc =
      .ok ((List.range n).map fun i =>
        if i < m then
          (List.range n).map fun j =>
            match lastMatch2 old (vp + i) (vp + j) rules with
            | some v => v
            | none => (acc.getD i []).getD j 0
        else acc.getD i []) := by
  induction m with
  | zero =>
    simp only [List.range'_zero, List.flatMap_nil, apply2Go]
    congr 1
    have : ∀ i : Nat, (if i < 0 then (List.range n).map (fun j =>
        match lastMatch2 old (vp + i) (vp + j) rules with
        | some v => v
        | none => (acc.getD i []).getD j 0) else acc.getD i []) = acc.getD i [] := by
      intro i
      simp
    rw [List.map_congr_left (fun i _ => this i)]
    rw [← hlen, map_range_eta]
  | succ k ih =>
    have hk : k ≤ n := by omega
    rw [List.range'_1_concat, List.flatMap_append, apply2Go_append, ih hk]
    simp only [List.flatMap_cons, List.flatMap_nil, List.append_nil]
    have hkn : k < n := by omega
    have hrowk : ((List.range n).map fun i =>
        if i < k then
          (List.range n).map fun j =>
            match lastMatch2 old (vp + i) (vp + j) rules with
            | some v => v
            | none => (acc.getD i []).getD j 0
        else acc.getD i []).getD k [] = acc.getD k [] := by
      rw [getD_map_range2 _ _ _ hkn]
      simp
    have hlenk : acc.getD k [] ∈ acc := getD_mem2 _ _ _ (by omega)
    rw [apply2Go_row old rules vp vp (vp + k) _ _ k (by omega)
      (by simp [hkn])
      (by
        intro ci hci
        rw [hrowk, hrows _ hlenk]
        have := List.mem_range'_1.mp hci
        omega)]
    have hfold : (List.range' vp n).foldl (fun r ci =>
        match lastMatch2 old (vp + k) ci rules with
        | some v => r.set (ci - vp) v
        | none => r)
          (((List.range n).map fun i =>
            if i < k then
              (List.range n).map fun j =>
                match lastMatch2 old (vp + i) (vp + j) rules with
                | some v => v
                | none => (acc.getD i []).getD j 0
            else acc.getD i []).getD k []) =
        (List.range n).map fun j =>
          match lastMatch2 old (vp + k) (vp + j) rules with
          | some v => v
          | none => (acc.getD k []).getD j 0 := by
      rw [hrowk]
      apply List.ext_getElem
      · rw [rowFold_length, hrows _ hlenk]
        simp
      · intro j hj1 hj2
        have hjn : j < n := by simpa using hj2
        have hjl : j < (acc.getD k []).length := by rw [hrows _ hlenk]; exact hjn
        rw [← List.getD_eq_getElem _ 0 hj1, ← List.getD_eq_getElem _ 0 hj2]
        rw [rowFold_getD old rules (vp + k) vp n _ j hjl]
        rw [if_pos hjn]
        rw [getD_map_range_nat (fun j => match lastMatch2 old (vp + k) (vp + j) rules with
          | some v => v
          | none => (acc.getD k []).getD j 0) n j hjn]
    rw [hfold]
    congr 1
    apply List.ext_getElem (by simp)
    intro i hi1 hi2
    by_cases hik : i = k
    · subst hik
      rw [List.getElem_set_self hi1]
      have hin : i < n := by simpa using hi2
      rw [List.getElem_map, List.getElem_range]
      rw [if_pos (by omega : i < i + 1)]
    · rw [List.getElem_set_ne (fun hh => hik hh.symm)]
      rw [List.getElem_map, List.getElem_range, List.getElem_map, List.getElem_range]
      by_cases hik2 : i < k
      · rw [if_pos hik2, if_pos (by omega : i < k + 1)]
      · rw [if_neg hik2, if_neg (by omega : ¬ i < k + 1)]

/-! ### The Life rule list -/

theorem combinations_complete : ∀ {s l : List Nat}, s.Sublist l → s ∈ combinations s.length l := by
  intro s l h
  induction h with
  | slnil => exact List.mem_singleton.mpr rfl
  | @cons s2 l2 a h ih =>
    cases s2 with
    | nil => exact List.mem_singleton.mpr rfl
    | cons x xs => exact List.mem_append_right _ ih
  | @cons₂ s2 l2 a h ih =>
    exact List.mem_append_left _ (List.mem_map.mpr ⟨_, ih, rfl⟩)

theorem powerset9_complete (s : List Nat) (h : s.Sublist (List.range 9)) : s ∈ powerset9 := by
  apply List.mem_flatMap.mpr
  refine ⟨s.length, ?_, combinations_complete h⟩
  apply List.mem_range.mpr
  have := h.length_le
  simp only [List.length_range] at this
  omega

/-- Every generated Life rule is the rule of some subset: its window is
that subset's 3×3 state, its anchor is `(1, 1)`, and its outcome is what
the Conway conditions dictate for that state. -/
theorem lifeRules_sound : ∀ r ∈ lifeRules, ∃ s b, r = ⟨.d2 (stateOf s), [1, 1], b⟩ ∧
    lifeOutcome (stateOf s) = some b := by
  intro r hr
  unfold lifeRules at hr
  obtain ⟨s, _, hf⟩ := List.mem_filterMap.mp hr
  refine ⟨s, ?_⟩
  dsimp only at hf
  unfold lifeOutcome
  dsimp only
  split_ifs at hf ⊢ <;> cases hf <;> exact ⟨_, rfl, rfl⟩

theorem stateOf_length (s : List Nat) :
    (stateOf s).length = 3 ∧ ((stateOf s).headD []).length = 3 := by
  unfold stateOf
  refine ⟨rfl, ?_⟩
  show (((List.range 9).map _).take 3).length = 3
  rw [List.length_take, List.length_map, List.length_range]
  omega

theorem lifeRules_shape : ∀ r ∈ lifeRules, r.center = [1, 1] ∧ r.window.rank = 2 ∧
    r.window.rows2.length = 3 ∧ (r.window.rows2.headD []).length = 3 := by
  intro r hr
  obtain ⟨s, b, hrs, _⟩ := lifeRules_sound r hr
  rw [hrs]
  exact ⟨rfl, rfl, (stateOf_length s).1, (stateOf_length s).2⟩

theorem lifeRules_window3 : ∀ r ∈ lifeRules, r.window.shape0 = 3 ∧ r.window.shape1 = 3 := by
  intro r hr
  obtain ⟨s, b, hrs, _⟩ := lifeRules_sound r hr
  rw [hrs]
  exact ⟨(stateOf_length s).1, (stateOf_length s).2⟩

theorem scan_congr (rules : List Rule) (p q : Rule → Bool) (h : ∀ r ∈ rules, p r = q r) :
    ∀ init : Option Nat,
      rules.foldl (fun acc r => if p r then some r.becomes else acc) init =
        rules.foldl (fun acc r => if q r then some r.becomes else acc) init := by
  induction rules with
  | nil => intro init; rfl
  | cons r rs ih =>
    intro init
    simp only [List.foldl_cons, h r (List.mem_cons_self _ _)]
    exact ih (fun x hx => h x (List.mem_cons_of_mem _ hx)) _

/-- Every Life rule has the same window shape and anchor, so the rule
scan at a position depends only on the 3×3 slice there. -/
theorem lastMatch2_life (old : List (List Nat)) (ri ci : Nat) :
    lastMatch2 old ri ci lifeRules = lifeLook (extract3 old ri ci) := by
  unfold lastMatch2 lifeLook
  apply scan_congr
  intro r hr
  obtain ⟨hcen, _, hlen, hhead⟩ := lifeRules_shape r hr
  simp only [Rule.matchAt2, extract3, hcen, hlen, hhead]
  rfl

theorem entry_01 (m : List (List Nat)) (h3 : m.length = 3)
    (hr : ∀ row ∈ m, row.length = 3) (h01 : ∀ row ∈ m, ∀ x ∈ row, x = 0 ∨ x = 1)
    (k : Nat) (hk : k < 9) : entryAt m k = 0 ∨ entryAt m k = 1 := by
  have hik : k / 3 < m.length := by omega
  have hrow := getD_mem2 m (k / 3) [] hik
  have hjk : k % 3 < (m.getD (k / 3) []).length := by
    rw [hr _ hrow]
    omega
  exact h01 _ hrow _ (getD_mem _ (k % 3) 0 hjk)

/-- Rebuilding the 3×3 state from the live-position subset gives the
neighborhood back. -/
theorem stateOf_ones (m : List (List Nat)) (h3 : m.length = 3)
    (hr : ∀ row ∈ m, row.length = 3) (h01 : ∀ row ∈ m, ∀ x ∈ row, x = 0 ∨ x = 1) :
    stateOf (ones m) = m := by
  have hflat : ∀ k ∈ List.range 9,
      (fun i => if i ∈ ones m then (1 : Nat) else 0) k = entryAt m k := by
    intro k hkr
    have hk : k < 9 := List.mem_range.mp hkr
    show (if k ∈ ones m then (1 : Nat) else 0) = entryAt m k
    by_cases hmem : entryAt m k = 1
    · rw [if_pos]
      · exact hmem.symm
      · apply List.mem_filter.mpr
        exact ⟨hkr, by simp [hmem]⟩
    · rw [if_neg]
      · rcases entry_01 m h3 hr h01 k hk with h | h
        · exact h.symm
        · exact absurd h hmem
      · intro hin
        exact hmem (by simpa using (List.mem_filter.mp hin).2)
  obtain ⟨r1, r2, r3, rfl⟩ := List.length_eq_three.mp h3
  obtain ⟨a, b, c, hq1⟩ := List.length_eq_three.mp (hr r1 (by simp))
  obtain ⟨d, e, f, hq2⟩ := List.length_eq_three.mp (hr r2 (by simp))
  obtain ⟨g, h, i, hq3⟩ := List.length_eq_three.mp (hr r3 (by simp))
  subst hq1 hq2 hq3
  unfold stateOf
  rw [List.map_congr_left hflat]
  rfl

/-- For every binary 3×3 neighborhood with a Conway outcome, the rule
list contains the rule with exactly that window and outcome. -/
theorem lifeRules_complete (m : List (List Nat)) (h3 : m.length = 3)
    (hr : ∀ row ∈ m, row.length = 3) (h01 : ∀ row ∈ m, ∀ x ∈ row, x = 0 ∨ x = 1)
    (b : Nat) (ho : lifeOutcome m = some b) :
    (⟨.d2 m, [1, 1], b⟩ : Rule) ∈ lifeRules := by
  have hstate : stateOf (ones m) = m := stateOf_ones m h3 hr h01
  unfold lifeRules
  apply List.mem_filterMap.mpr
  refine ⟨ones m, powerset9_complete (ones m) (List.filter_sublist _), ?_⟩
  dsimp only
  rw [hstate]
  unfold lifeOutcome at ho
  dsimp only at ho
  split_ifs at ho ⊢ <;> cases ho <;> rfl

theorem foldScan_none (m : List (List Nat)) (rules : List Rule) (init : Option Nat)
    (h : ∀ r ∈ rules, (m == r.window.rows2) = false) :
    rules.foldl (fun acc r => if m == r.window.rows2 then some r.becomes else acc) init
      = init := by
  induction rules generalizing init with
  | nil => rfl
  | cons r rs ih =>
    rw [List.foldl_cons, if_neg (by rw [h r (List.mem_cons_self _ _)]; exact Bool.false_ne_true)]
    exact ih _ (fun x hx => h x (List.mem_cons_of_mem _ hx))

theorem foldScan_uniform (m : List (List Nat)) (b : Nat) : ∀ (rules : List Rule),
    (∃ r ∈ rules, (m == r.window.rows2) = true) →
    (∀ r ∈ rules, (m == r.window.rows2) = true → r.becomes = b) →
    ∀ init : Option Nat,
      rules.foldl (fun acc r => if m == r.window.rows2 then some r.becomes else acc) init
        = some b := by
  intro rules
  induction rules with
  | nil =>
    intro hex _ _
    obtain ⟨r, hr, _⟩ := hex
    exact absurd hr (List.not_mem_nil r)
  | cons r rs ih =>
    intro hex huni init
    rw [List.foldl_cons]
    by_cases hrest : ∃ q ∈ rs, (m == q.window.rows2) = true
    · exact ih hrest (fun x hx => huni x (List.mem_cons_of_mem _ hx)) _
    · have hnone : ∀ q ∈ rs, (m == q.window.rows2) = false := by
        intro q hq
        cases hmq : (m == q.window.rows2) with
        | false => rfl
        | true => exact absurd ⟨q, hq, hmq⟩ hrest
      rw [foldScan_none m rs _ hnone]
      have hhead : (m == r.window.rows2) = true := by
        obtain ⟨q, hq, hmq⟩ := hex
        rcases List.mem_cons.mp hq with rfl | hq2
        · exact hmq
        · exact absurd ⟨q, hq2, hmq⟩ hrest
      rw [if_pos hhead, huni r (List.mem_cons_self _ _) hhead]

/-- On a well-formed 3×3 binary neighborhood the Life rule scan is the
neighbor-count outcome. -/
theorem lifeLook_outcome (m : List (List Nat)) (h3 : m.length = 3)
    (hr : ∀ row ∈ m, row.length = 3) (h01 : ∀ row ∈ m, ∀ x ∈ row, x = 0 ∨ x = 1) :
    lifeLook m = lifeOutcome m := by
  unfold lifeLook
  cases ho : lifeOutcome m with
  | none =>
    apply foldScan_none
    intro r hrm
    obtain ⟨s, b, hrs, hout⟩ := lifeRules_sound r hrm
    subst hrs
    cases hmq : (m == (Rule.mk (.d2 (stateOf s)) [1, 1] b).window.rows2) with
    | false => rfl
    | true =>
      exfalso
      have hm : m = stateOf s := by simpa using eq_of_beq hmq
      rw [← hm, ho] at hout
      cases hout
  | some b2 =>
    apply foldScan_uniform m b2
    · refine ⟨⟨.d2 m, [1, 1], b2⟩, lifeRules_complete m h3 hr h01 b2 ho, ?_⟩
      show (m == m) = true
      exact beq_self_eq_true m
    · intro r hrm hmq
      obtain ⟨s, b, hrs, hout⟩ := lifeRules_sound r hrm
      subst hrs
      have hm : m = stateOf s := by simpa using eq_of_beq hmq
      rw [← hm, ho] at hout
      injection hout with hb
      exact hb.symm

theorem extract3_shape (old : List (List Nat)) (W ri ci : Nat)
    (hrow : ∀ r ∈ old, r.length = W) (hri : ri - 1 + 3 ≤ old.length) (hci : ci - 1 + 3 ≤ W) :
    (extract3 old ri ci).length = 3 ∧ ∀ row ∈ extract3 old ri ci, row.length = 3 := by
  constructor
  · unfold extract3
    rw [List.length_map, List.length_take, List.length_drop]
    omega
  · intro row hmem
    unfold extract3 at hmem
    obtain ⟨r0, hr0, rfl⟩ := List.mem_map.mp hmem
    have : r0 ∈ old := List.mem_of_mem_drop (List.mem_of_mem_take hr0)
    unfold slice1
    rw [List.length_take, List.length_drop, hrow r0 this]
    omega

theorem extract3_01 (old : List (List Nat)) (ri ci : Nat)
    (h01 : ∀ r ∈ old, ∀ x ∈ r, x = 0 ∨ x = 1) :
    ∀ row ∈ extract3 old ri ci, ∀ x ∈ row, x = 0 ∨ x = 1 := by
  intro row hmem x hx
  unfold extract3 at hmem
  obtain ⟨r0, hr0, rfl⟩ := List.mem_map.mp hmem
  have hr0o : r0 ∈ old := List.mem_of_mem_drop (List.mem_of_mem_take hr0)
  unfold slice1 at hx
  exact h01 r0 hr0o x (List.mem_of_mem_drop (List.mem_of_mem_take hx))

theorem pad2_headD_length (rows : List (List Nat)) (n : Nat) (hlen : rows.length = n)
    (hrows : ∀ r ∈ rows, r.length = n) : (rows.headD []).length = n := by
  cases rows with
  | nil => simpa using hlen
  | cons r rs => exact hrows r (List.mem_cons_self _ _)

theorem pad2_shape (rows : List (List Nat)) (n vp hp : Nat) (hlen : rows.length = n)
    (hrows : ∀ r ∈ rows, r.length = n) (h01 : ∀ r ∈ rows, ∀ x ∈ r, x = 0 ∨ x = 1) :
    (pad2 rows vp hp).length = n + 2 * vp ∧
      (∀ r ∈ pad2 rows vp hp, r.length = n + 2 * hp) ∧
      ∀ r ∈ pad2 rows vp hp, ∀ x ∈ r, x = 0 ∨ x = 1 := by
  have hw : (rows.headD []).length = n := pad2_headD_length rows n hlen hrows
  refine ⟨?_, ?_, ?_⟩
  · unfold pad2
    simp [hlen]
    omega
  · intro r hr
    unfold pad2 at hr
    rw [List.mem_append, List.mem_append] at hr
    rcases hr with (hr | hr) | hr
    · rw [List.eq_of_mem_replicate hr, List.length_replicate, hw]
    · obtain ⟨r0, hr0, rfl⟩ := List.mem_map.mp hr
      simp [hrows r0 hr0]
      omega
    · rw [List.eq_of_mem_replicate hr, List.length_replicate, hw]
  · intro r hr x hx
    unfold pad2 at hr
    rw [List.mem_append, List.mem_append] at hr
    rcases hr with (hr | hr) | hr
    · rw [List.eq_of_mem_replicate hr] at hx
      left
      exact List.eq_of_mem_replicate hx
    · obtain ⟨r0, hr0, rfl⟩ := List.mem_map.mp hr
      rw [List.mem_append, List.mem_append] at hx
      rcases hx with (hx | hx) | hx
      · left
        exact List.eq_of_mem_replicate hx
      · exact h01 r0 hr0 x hx
      · left
        exact List.eq_of_mem_replicate hx
    · rw [List.eq_of_mem_replicate hr] at hx
      left
      exact List.eq_of_mem_replicate hx

theorem lifeRules_ne_nil : lifeRules ≠ [] := by
  have hmem := lifeRules_complete [[1, 1, 1], [0, 0, 0], [0, 0, 0]] (by decide)
    (by decide) (by decide) 1 (by decide)
  exact List.ne_nil_of_mem hmem

theorem foldl_max_const (l : List Rule) (f : Rule → Nat) (x : Nat) (h : ∀ q ∈ l, f q = x) :
    l.foldl (fun m q => max m (f q)) x = x := by
  induction l with
  | nil => rfl
  | cons q qs ih =>
    rw [List.foldl_cons, h q (List.mem_cons_self _ _), Nat.max_self]
    exact ih (fun p hp => h p (List.mem_cons_of_mem _ hp))

theorem maxShape0_life : maxShape0 lifeRules = .ok 3 := by
  cases hL : lifeRules with
  | nil => exact absurd hL lifeRules_ne_nil
  | cons r0 rs =>
    have h0 : r0.window.shape0 = 3 :=
      (lifeRules_window3 r0 (by rw [hL]; exact List.mem_cons_self _ _)).1
    show Except.ok (rs.foldl (fun m q => max m q.window.shape0) r0.window.shape0) = _
    rw [h0, foldl_max_const rs (fun q => q.window.shape0) 3 (fun q hq =>
      (lifeRules_window3 q (by rw [hL]; exact List.mem_cons_of_mem _ hq)).1)]

theorem maxShape1_life : maxShape1 lifeRules = .ok 3 := by
  cases hL : lifeRules with
  | nil => exact absurd hL lifeRules_ne_nil
  | cons r0 rs =>
    have h0 : r0.window.shape1 = 3 :=
      (lifeRules_window3 r0 (by rw [hL]; exact List.mem_cons_self _ _)).2
    show Except.ok (rs.foldl (fun m q => max m q.window.shape1) r0.window.shape1) = _
    rw [h0, foldl_max_const rs (fun q => q.window.shape1) 3 (fun q hq =>
      (lifeRules_window3 q (by rw [hL]; exact List.mem_cons_of_mem _ hq)).2)]

theorem lifeOutcome_values (m : List (List Nat)) (v : Nat) (h : lifeOutcome m = some v) :
    v = 0 ∨ v = 1 := by
  unfold lifeOutcome at h
  dsimp only at h
  split_ifs at h <;> cases h <;> omega

theorem grid_entry_01 (rows : List (List Nat)) (n : Nat) (h : sq01 rows n) (i j : Nat) :
    (rows.getD i []).getD j 0 = 0 ∨ (rows.getD i []).getD j 0 = 1 := by
  by_cases hi : i < rows.length
  · have hrow := getD_mem2 rows i [] hi
    by_cases hj : j < (rows.getD i []).length
    · exact (h.2 _ hrow).2 _ (getD_mem _ j 0 hj)
    · left
      exact List.getD_eq_default _ _ (by omega)
  · left
    have hrow : rows.getD i [] = [] := List.getD_eq_default _ _ (by omega)
    rw [hrow]
    cases j <;> rfl

/-- One fast Life step keeps the grid square and binary. -/
theorem fastLifeStep_sq01 (rows : List (List Nat)) (n : Nat) (h : sq01 rows n) :
    sq01 (fastLifeStep rows n) n := by
  constructor
  · unfold fastLifeStep
    rw [List.length_map, List.length_range]
  · intro r hrm
    unfold fastLifeStep at hrm
    obtain ⟨i, _, rfl⟩ := List.mem_map.mp hrm
    constructor
    · rw [List.length_map, List.length_range]
    · intro x hx
      obtain ⟨j, _, rfl⟩ := List.mem_map.mp hx
      cases ho : lifeOutcome (extract3 (pad2 rows 3 3) (3 + i) (3 + j)) with
      | some v =>
        simp only [ho]
        exact lifeOutcome_values _ v ho
      | none =>
        simp only [ho]
        exact grid_entry_01 rows n h i j

theorem lifeRules_rank : (lifeRules.all fun r => r.window.rank == 2) = true :=
  List.all_eq_true.mpr fun r hr => by
    rw [(lifeRules_shape r hr).2.1]
    rfl

/-- One `apply` of the Life rules on an `n × n` binary grid is the
per-cell neighbor-count step. -/
theorem applyM_life (n : Nat) (rows : List (List Nat)) (h : sq01 rows n) :
    Universe.applyM ⟨2, .obj ⟨some n⟩, .d2 rows⟩ lifeRules =
      (⟨2, .obj ⟨some n⟩, .d2 (fastLifeStep rows n)⟩, none) := by
  obtain ⟨hlen, hrows⟩ := h
  have hrl : ∀ r ∈ rows, r.length = n := fun r hr => (hrows r hr).1
  have h01 : ∀ r ∈ rows, ∀ x ∈ r, x = 0 ∨ x = 1 := fun r hr => (hrows r hr).2
  obtain ⟨hplen, hprows, hp01⟩ := pad2_shape rows n 3 3 hlen hrl h01
  have hcell : ∀ i < n, ∀ j < n,
      lastMatch2 (pad2 rows 3 3) (3 + i) (3 + j) lifeRules =
        lifeOutcome (extract3 (pad2 rows 3 3) (3 + i) (3 + j)) := by
    intro i hi j hj
    rw [lastMatch2_life]
    have hb1 : (3 + i) - 1 + 3 ≤ (pad2 rows 3 3).length := by
      rw [hplen]
      omega
    have hb2 : (3 + j) - 1 + 3 ≤ n + 2 * 3 := by omega
    obtain ⟨he1, he2⟩ := extract3_shape (pad2 rows 3 3) (n + 2 * 3) (3 + i) (3 + j)
      hprows hb1 hb2
    exact lifeLook_outcome _ he1 he2 (extract3_01 _ _ _ hp01)
  have happ : Universe.applyE ⟨2, .obj ⟨some n⟩, .d2 rows⟩ lifeRules =
      .ok (.d2 (fastLifeStep rows n)) := by
    unfold Universe.applyE
    rw [if_neg (by simp [lifeRules_rank])]
    rw [if_neg (by simp : ¬ (Universe.mk 2 (.obj ⟨some n⟩) (.d2 rows)).dimensions = 1)]
    simp only [maxShape0_life, maxShape1_life, SizeField.sizeAttr]
    unfold positions2
    rw [(by omega : n + 3 - 3 = n)]
    rw [show (Universe.mk 2 (.obj ⟨some n⟩) (.d2 rows)).univ.rows2 = rows from rfl]
    rw [apply2Go_grid (pad2 rows 3 3) lifeRules 3 n n (Nat.le_refl n) rows hlen hrl]
    dsimp only
    congr 2
    unfold fastLifeStep
    apply List.map_congr_left
    intro i hi
    have hin : i < n := List.mem_range.mp hi
    rw [if_pos hin]
    apply List.map_congr_left
    intro j hj
    have hjn : j < n := List.mem_range.mp hj
    rw [hcell i hin j hjn]
  unfold Universe.applyM
  rw [happ]

theorem stepN_chain4 (u0 u1 u2 u3 u4 : Universe) (rules : List Rule)
    (h1 : u0.applyM rules = (u1, none)) (h2 : u1.applyM rules = (u2, none))
    (h3 : u2.applyM rules = (u3, none)) (h4 : u3.applyM rules = (u4, none)) :
    stepN u0 rules 4 = (u4, none) := by
  have e1 : stepN u0 rules 4 = stepN u1 rules 3 := by
    show (match u0.applyM rules with
      | (u, none) => stepN u rules 3
      | (u, some e) => (u, some e)) = stepN u1 rules 3
    rw [h1]
  have e2 : stepN u1 rules 3 = stepN u2 rules 2 := by
    show (match u1.applyM rules with
      | (u, none) => stepN u rules 2
      | (u, some e) => (u, some e)) = stepN u2 rules 2
    rw [h2]
  have e3 : stepN u2 rules 2 = stepN u3 rules 1 := by
    show (match u2.applyM rules with
      | (u, none) => stepN u rules 1
      | (u, some e) => (u, some e)) = stepN u3 rules 1
    rw [h3]
  have e4 : stepN u3 rules 1 = stepN u4 rules 0 := by
    show (match u3.applyM rules with
      | (u, none) => stepN u rules 0
      | (u, some e) => (u, some e)) = stepN u4 rules 0
    rw [h4]
  rw [e1, e2, e3, e4]
  rfl

set_option maxRecDepth 1000000 in
set_option maxHeartbeats 2000000 in
/-- C3: on the 20×20 Life universe seeded with the glider cells
`(2,1), (3,2), (1,3), (2,3), (3,3)`, four applications of the rule list
produce exactly the same five live cells translated by one row and one
column. -/
theorem glider_period4_translation :
    lifeAfter4 =
      (⟨2, .obj ⟨some 20⟩, .d2 (gridWithLive 20 [(3, 2), (4, 3), (2, 4), (3, 4), (4, 4)])⟩, none) := by
  have hseed : lifeSeeded =
      (⟨2, .obj ⟨some 20⟩, .d2 (gridWithLive 20 [(2, 1), (3, 2), (1, 3), (2, 3), (3, 3)])⟩, none) := by
    decide!
  have hsq0 : sq01 (gridWithLive 20 [(2, 1), (3, 2), (1, 3), (2, 3), (3, 3)]) 20 := by
    decide!
  have hsq1 := fastLifeStep_sq01 _ _ hsq0
  have hsq2 := fastLifeStep_sq01 _ _ hsq1
  have hsq3 := fastLifeStep_sq01 _ _ hsq2
  have hs1 := applyM_life 20 (gridWithLive 20 [(2, 1), (3, 2), (1, 3), (2, 3), (3, 3)]) hsq0
  have hs2 := applyM_life 20
    (fastLifeStep (gridWithLive 20 [(2, 1), (3, 2), (1, 3), (2, 3), (3, 3)]) 20) hsq1
  have hs3 := applyM_life 20
    (fastLifeStep (fastLifeStep (gridWithLive 20 [(2, 1), (3, 2), (1, 3), (2, 3), (3, 3)]) 20) 20)
    hsq2
  have hs4 := applyM_life 20
    (fastLifeStep (fastLifeStep (fastLifeStep
      (gridWithLive 20 [(2, 1), (3, 2), (1, 3), (2, 3), (3, 3)]) 20) 20) 20)
    hsq3
  unfold lifeAfter4
  rw [hseed]
  rw [stepN_chain4 _ _ _ _ _ lifeRules hs1 hs2 hs3 hs4]
  decide!

/-- C1: the 2-D rule loop of `apply` has no `break`, so the LAST
matching rule determines the cell, not the first.  With two rules whose
window `[[0]]` both matches the single dead cell, the first rule
(outcome 1) fires but is overwritten by the second (outcome 0): the cell
ends at 0, while first-match-wins would give 1.  The 1-D branch does
break: the same setup there yields the first rule's outcome 1. -/
theorem twoD_last_match_wins :
    Universe.applyM ⟨2, .obj ⟨some 1⟩, .d2 [[0]]⟩
        [⟨.d2 [[0]], [0, 0], 1⟩, ⟨.d2 [[0]], [0, 0], 0⟩]
      = (⟨2, .obj ⟨some 1⟩, .d2 [[0]]⟩, none)
    ∧ Rule.matchAt2 ⟨.d2 [[0]], [0, 0], 1⟩ (pad2 [[0]] 1 1) 1 1 = true
    ∧ (⟨.d2 [[0]], [0, 0], 1⟩ : Rule).becomes = 1
    ∧ Universe.applyM ⟨1, .obj ⟨some 1⟩, .d1 [0]⟩
        [⟨.d1 [0], [0], 1⟩, ⟨.d1 [0], [0], 0⟩]
      = (⟨1, .obj ⟨some 1⟩, .d1 [1]⟩, none) := by
  refine ⟨by decide!, by decide!, rfl, by decide!⟩

/-- C2: the column loop's upper bound uses `vertical_padding` (source
line 173), so with a single 1×2 rule (`vertical_padding = 1`,
`horizontal_padding = 2`) on a 2×2 grid only the column position 2 is
visited per row: cell (0,1) is never evaluated although the rule's
window matches at its scan position (1,3), and the result updates only
column 0 instead of the whole grid. -/
theorem column_range_typo :
    Universe.applyM ⟨2, .obj ⟨some 2⟩, .d2 [[0, 0], [0, 0]]⟩ [⟨.d2 [[0, 0]], [0, 0], 1⟩]
      = (⟨2, .obj ⟨some 2⟩, .d2 [[1, 0], [1, 0]]⟩, none)
    ∧ Rule.matchAt2 ⟨.d2 [[0, 0]], [0, 0], 1⟩ (pad2 [[0, 0], [0, 0]] 1 2) 1 3 = true
    ∧ (1, 3) ∉ positions2 1 2 2 := by
  refine ⟨by decide!, by decide!, by decide!⟩

/-- C4: `apply` matches windows against `np.pad`-zero snapshots: every
off-grid position of the padded snapshot reads as dead (0) — in fact the
padded snapshot is exactly the zero-extension of the grid — and a rule
`[0, 1]` anchored at its right cell (matching only when the left
neighbor is dead) fires at cell 0 of the grid `[1, 1]`, whose left
neighbor is off-grid, while it does not fire at cell 1. -/
theorem padding_reads_dead (g : List Nat) (rows : List (List Nat)) (m p vp hp k i j : Nat)
    (hrect : ∀ r ∈ rows, r.length = m) :
    (pad1 g p).getD k 0 = (if p ≤ k ∧ k < p + g.length then g.getD (k - p) 0 else 0)
    ∧ ((pad2 rows vp hp).getD i []).getD j 0 =
        (if vp ≤ i ∧ i < vp + rows.length ∧ hp ≤ j ∧ j < hp + m then
          (rows.getD (i - vp) []).getD (j - hp) 0
        else 0)
    ∧ Universe.applyM ⟨1, .obj ⟨some 2⟩, .d1 [1, 1]⟩ [⟨.d1 [0, 1], [1], 0⟩]
      = (⟨1, .obj ⟨some 2⟩, .d1 [0, 1]⟩, none) :=
  ⟨pad1_getD g p k, pad2_getD rows m vp hp i j hrect, by decide!⟩

/-- Witness for `padding_reads_dead` at a concrete grid: the position
left of the grid start reads dead. -/
theorem padding_reads_dead_witness :
    ((pad2 [[1]] 1 1).getD 0 []).getD 0 0 = 0 := by
  have h := (padding_reads_dead [1] [[1]] 1 1 1 1 0 0 0 (by decide)).2.1
  simpa using h

theorem apply1_getD (cells : List Nat) (rules : List Rule) (n p i : Nat) (h : i < n) :
    (apply1 cells rules n p).getD i 0 =
      match scanRules1 (pad1 cells p) (i + p) rules with
      | some v => v
      | none => cells.getD i 0 := by
  unfold apply1
  exact getD_map_range_nat _ n i h

/-- C5: a cell whose rule scan finds no match keeps its previous value:
the new buffer starts as `np.copy` of the old cells and an unmatched
cell is never overwritten.  Stated for both branches of `apply`; when
`apply` raises, the universe is untouched and the cell trivially keeps
its value, so no success hypothesis is needed. -/
theorem unmatched_cell_retains (n : Nat) (cells : List Nat) (rows : List (List Nat))
    (rules : List Rule) (p vp hp i j : Nat) :
    (maxShape0 rules = .ok p → i < n →
      scanRules1 (pad1 cells p) (i + p) rules = none →
      ((Universe.applyM ⟨1, .obj ⟨some n⟩, .d1 cells⟩ rules).1.univ.cells1.getD i 0
        = cells.getD i 0))
    ∧ (maxShape0 rules = .ok vp → maxShape1 rules = .ok hp →
      lastMatch2 (pad2 rows vp hp) (vp + i) (hp + j) rules = none →
      (((Universe.applyM ⟨2, .obj ⟨some n⟩, .d2 rows⟩ rules).1.univ.rows2.getD i []).getD j 0
        = (rows.getD i []).getD j 0)) := by
  constructor
  · intro hmax hin hscan
    by_cases hall : (rules.all fun r =>
        r.window.rank == (Universe.mk 1 (.obj ⟨some n⟩) (.d1 cells)).dimensions) = true
    · have happ : Universe.applyE ⟨1, .obj ⟨some n⟩, .d1 cells⟩ rules =
          .ok (.d1 (apply1 cells rules n p)) := by
        unfold Universe.applyE
        rw [if_neg (by simpa using hall)]
        rw [if_pos rfl, hmax]
        rfl
      unfold Universe.applyM
      rw [happ]
      show (apply1 cells rules n p).getD i 0 = cells.getD i 0
      rw [apply1_getD cells rules n p i hin, hscan]
    · have happ : Universe.applyE ⟨1, .obj ⟨some n⟩, .d1 cells⟩ rules =
          .error "Rules must match the dimensions" := by
        unfold Universe.applyE
        rw [if_pos (by simpa using hall)]
      unfold Universe.applyM
      rw [happ]
      rfl
  · intro hvp hhp hnm
    by_cases hall : (rules.all fun r =>
        r.window.rank == (Universe.mk 2 (.obj ⟨some n⟩) (.d2 rows)).dimensions) = true
    · cases hgo : apply2Go (pad2 rows vp hp) rules vp hp (positions2 vp hp n) rows with
      | error e =>
        have happ : Universe.applyE ⟨2, .obj ⟨some n⟩, .d2 rows⟩ rules = .error e := by
          unfold Universe.applyE
          rw [if_neg (by simpa using hall)]
          rw [if_neg (by simp)]
          rw [hvp, hhp]
          show (match apply2Go (pad2 rows vp hp) rules vp hp (positions2 vp hp n) rows with
            | .error e => Except.error e
            | .ok res => Except.ok (NDArray.d2 res)) = _
          rw [hgo]
        unfold Universe.applyM
        rw [happ]
        rfl
      | ok res =>
        have happ : Universe.applyE ⟨2, .obj ⟨some n⟩, .d2 rows⟩ rules = .ok (.d2 res) := by
          unfold Universe.applyE
          rw [if_neg (by simpa using hall)]
          rw [if_neg (by simp)]
          rw [hvp, hhp]
          show (match apply2Go (pad2 rows vp hp) rules vp hp (positions2 vp hp n) rows with
            | .error e => Except.error e
            | .ok res => Except.ok (NDArray.d2 res)) = _
          rw [hgo]
        unfold Universe.applyM
        rw [happ]
        show (res.getD i []).getD j 0 = (rows.getD i []).getD j 0
        apply apply2Go_not_written _ _ _ _ _ _ _ _ _ hgo
        intro ri ci hmem hri hci
        obtain ⟨a, ha, hpair⟩ := List.mem_flatMap.mp hmem
        obtain ⟨b, hb, hpb⟩ := List.mem_map.mp hpair
        injection hpb with he1 he2
        subst he1 he2
        have hra := List.mem_range'_1.mp ha
        have hrb := List.mem_range'_1.mp hb
        have e1 : a = vp + i := by omega
        have e2 : b = hp + j := by omega
        subst e1 e2
        exact hnm
    · have happ : Universe.applyE ⟨2, .obj ⟨some n⟩, .d2 rows⟩ rules =
          .error "Rules must match the dimensions" := by
        unfold Universe.applyE
        rw [if_pos (by simpa using hall)]
      unfold Universe.applyM
      rw [happ]
      rfl

/-- Witness for `unmatched_cell_retains`: a live single-cell 1-D grid
with one non-matching rule keeps its live cell. -/
theorem unmatched_cell_retains_witness :
    (Universe.applyM ⟨1, .obj ⟨some 1⟩, .d1 [1]⟩ [⟨.d1 [0], [0], 0⟩]).1.univ.cells1.getD 0 0
      = 1 := by
  have h := (unmatched_cell_retains 1 [1] [] [⟨.d1 [0], [0], 0⟩] 1 1 1 0 0).1
    rfl (by decide) (by decide)
  simpa using h

/-! ### transform bounds (C6, C7) -/

/-- C6 counterexample: `transform(-1, 1)` on a 1-D grid of extent 3 does
NOT fail — numpy wraps the negative index and the cell at `extent - 1`
is set. -/
theorem transform_neg_wraps :
    Universe.transform ⟨1, .obj ⟨some 3⟩, .d1 [0, 0, 0]⟩ (.single (.int (-1))) 1
      = (⟨1, .obj ⟨some 3⟩, .d1 [0, 0, 1]⟩, none) := by
  decide

/-- C6 amended: a coordinate at or beyond `extent`, or below `-extent`,
raises `IndexError` and leaves the grid untouched; a negative coordinate
in `[-extent, -1]` silently wraps and sets the cell `extent + i` — in
particular `-1` sets the cell at `extent - 1`. -/
theorem transform_bounds (cells : List Nat) (i : Int) (s : Nat) :
    ((i < -(cells.length : Int) ∨ (cells.length : Int) ≤ i) →
      Universe.transform ⟨1, .obj ⟨some cells.length⟩, .d1 cells⟩ (.single (.int i)) s
        = (⟨1, .obj ⟨some cells.length⟩, .d1 cells⟩, some "IndexError"))
    ∧ (-(cells.length : Int) ≤ i → i < 0 →
      Universe.transform ⟨1, .obj ⟨some cells.length⟩, .d1 cells⟩ (.single (.int i)) s
        = (⟨1, .obj ⟨some cells.length⟩, .d1 (cells.set ((cells.length : Int) + i).toNat s)⟩,
          none)) := by
  constructor
  · intro hout
    have hnp : npIndex cells.length i = .error "IndexError" := by
      unfold npIndex
      rw [if_neg (by omega), if_neg (by omega)]
    have hloc : Universe.transformLoc ⟨1, .obj ⟨some cells.length⟩, .d1 cells⟩ (.int i) s
        = .error "IndexError" := by
      unfold Universe.transformLoc
      rw [if_neg (by simp [Loc.toTuple])]
      show (match NDArray.npSet (.d1 cells) [i] s with
        | .error e => Except.error e
        | .ok arr => Except.ok _) = _
      unfold NDArray.npSet
      dsimp only
      rw [hnp]
    unfold Universe.transform
    dsimp only
    rw [hloc]
  · intro hge hlt
    have hnp : npIndex cells.length i = .ok ((cells.length : Int) + i).toNat := by
      unfold npIndex
      rw [if_neg (by omega), if_pos ⟨hge, hlt⟩]
    have hloc : Universe.transformLoc ⟨1, .obj ⟨some cells.length⟩, .d1 cells⟩ (.int i) s
        = .ok ⟨1, .obj ⟨some cells.length⟩, .d1 (cells.set ((cells.length : Int) + i).toNat s)⟩ := by
      unfold Universe.transformLoc
      rw [if_neg (by simp [Loc.toTuple])]
      show (match NDArray.npSet (.d1 cells) [i] s with
        | .error e => Except.error e
        | .ok arr => Except.ok _) = _
      unfold NDArray.npSet
      dsimp only
      rw [hnp]
    unfold Universe.transform
    dsimp only
    rw [hloc]

/-- Witness for `transform_bounds`: `-1` on `[0, 0, 0]` sets the last
cell. -/
theorem transform_bounds_witness :
    Universe.transform ⟨1, .obj ⟨some 3⟩, .d1 [0, 0, 0]⟩ (.single (.int (-1))) 1
      = (⟨1, .obj ⟨some 3⟩, .d1 ([0, 0, 0].set ((3 : Int) + (-1)).toNat 1)⟩, none) := by
  have h := (transform_bounds [0, 0, 0] (-1) 1).2 (by decide) (by decide)
  simpa using h

/-- C7 counterexample: `transform` over the collection
`[0, (0, 1)]` on a 1-D grid of extent 2 raises the dimension-mismatch
`ValueError` on the second location, but the first location has already
been applied: the call ends with the grid mutated to `[1, 0]`, not with
the grid unchanged. -/
theorem transform_partial_mutation :
    Universe.transform ⟨1, .obj ⟨some 2⟩, .d1 [0, 0]⟩ (.iter [.int 0, .tup [0, 1]]) 1
      = (⟨1, .obj ⟨some 2⟩, .d1 [1, 0]⟩,
        some "Location must have the same number of dimensions as the universe") := by
  decide

theorem transformLoc_dimensions (u u2 : Universe) (l : Loc) (s : Nat)
    (h : u.transformLoc l s = .ok u2) : u2.dimensions = u.dimensions := by
  unfold Universe.transformLoc at h
  by_cases hc : l.toTuple.length ≠ u.dimensions
  · rw [if_pos hc] at h
    cases h
  · rw [if_neg hc] at h
    cases hnp : u.univ.npSet l.toTuple s with
    | error e =>
      rw [hnp] at h
      cases h
    | ok arr =>
      rw [hnp] at h
      cases h
      rfl

/-- C7 amended: a bad-arity location in the collection raises the
dimension-mismatch `ValueError`, but every location before it in
iteration order has already been applied: the result is the state after
the error-free prefix, not the original grid. -/
theorem transform_applies_prefix (u u2 : Universe) (pre rest : List Loc) (bad : Loc) (s : Nat)
    (hpre : Universe.transform u (.iter pre) s = (u2, none))
    (hbad : bad.toTuple.length ≠ u.dimensions) :
    Universe.transform u (.iter (pre ++ bad :: rest)) s =
      (u2, some "Location must have the same number of dimensions as the universe") := by
  induction pre generalizing u with
  | nil =>
    have hu : u2 = u := by
      have : (u, (none : Option String)) = (u2, none) := hpre
      cases this
      rfl
    subst hu
    show Universe.transformGo u2 (bad :: rest) s = _
    have hloc : u2.transformLoc bad s =
        .error "Location must have the same number of dimensions as the universe" := by
      unfold Universe.transformLoc
      rw [if_pos hbad]
    unfold Universe.transformGo
    rw [hloc]
  | cons l pre2 ih =>
    have hpre2 : Universe.transformGo u (l :: pre2) s = (u2, none) := hpre
    unfold Universe.transformGo at hpre2
    show Universe.transformGo u (l :: (pre2 ++ bad :: rest)) s = _
    unfold Universe.transformGo
    cases hl : u.transformLoc l s with
    | error e =>
      rw [hl] at hpre2
      cases hpre2
    | ok u3 =>
      rw [hl] at hpre2
      have hbad3 : bad.toTuple.length ≠ u3.dimensions := by
        rw [transformLoc_dimensions u u3 l s hl]
        exact hbad
      exact ih u3 hpre2 hbad3

/-- Witness for `transform_applies_prefix`: prefix `[0]` is applied
before the bad-arity location `(0, 1)` raises. -/
theorem transform_applies_prefix_witness :
    Universe.transform ⟨1, .obj ⟨some 2⟩, .d1 [0, 0]⟩ (.iter ([.int 0] ++ .tup [0, 1] :: [])) 1
      = (⟨1, .obj ⟨some 2⟩, .d1 [1, 0]⟩,
        some "Location must have the same number of dimensions as the universe") := by
  have h := transform_applies_prefix ⟨1, .obj ⟨some 2⟩, .d1 [0, 0]⟩
    ⟨1, .obj ⟨some 2⟩, .d1 [1, 0]⟩ [.int 0] [] (.tup [0, 1]) 1 (by decide) (by decide)
  exact h

/-! ### Rule construction (C8) -/

/-- C8 counterexample: `Rule.__init__` accepts `becomes = 2` — no range
check on the outcome is performed, so construction succeeds rather than
failing. -/
theorem mkRule_accepts_becomes_two :
    mkRule (.d1 [0, 1, 0]) (.int 1) 2 = .ok ⟨.d1 [0, 1, 0], [1], 2⟩ := by
  rfl

/-- C8 amended: rule construction validates only that the anchor arity
equals the window rank; every outcome value is accepted and stored as
is. -/
theorem mkRule_checks_only_arity (w : NDArray) (c : CenterArg) (b : Nat)
    (h : c.toTuple.length = w.rank) : mkRule w c b = .ok ⟨w, c.toTuple, b⟩ := by
  unfold mkRule
  rw [if_neg (by omega)]

/-- Witness for `mkRule_checks_only_arity` at outcome 2. -/
theorem mkRule_checks_only_arity_witness :
    mkRule (.d2 [[1]]) (.tup [0, 0]) 2 = .ok ⟨.d2 [[1]], [0, 0], 2⟩ :=
  mkRule_checks_only_arity (.d2 [[1]]) (.tup [0, 0]) 2 (by decide)

/-! ### Rendering (C9) -/

theorem join_data (l : List String) : (String.join l).data = (l.map String.data).flatten := by
  suffices h : ∀ (l2 : List String) (acc : String),
      (l2.foldl (fun r t => r ++ t) acc).data = acc.data ++ (l2.map String.data).flatten by
    simp [String.join, h l ""]
  intro l2
  induction l2 with
  | nil => intro acc; simp
  | cons a as ih =>
    intro acc
    rw [List.foldl_cons, ih, String.data_append]
    simp

theorem map_data_intersperse (sep : String) :
    ∀ l : List String, (List.intersperse sep l).map String.data
      = List.intersperse sep.data (l.map String.data)
  | [] => rfl
  | [_] => rfl
  | a :: b :: tl => by
    rw [List.intersperse_cons_cons]
    simp only [List.map_cons]
    rw [map_data_intersperse sep (b :: tl)]
    simp only [List.map_cons]
    rw [List.intersperse_cons_cons]

theorem pyJoin_data (sep : String) (parts : List String) :
    (pyJoin sep parts).data = List.intercalate sep.data (parts.map String.data) := by
  unfold pyJoin
  rw [join_data, map_data_intersperse]
  rfl

theorem flatten_replicate_single (n : Nat) (c : Char) :
    (List.replicate n [c]).flatten = List.replicate n c := by
  induction n with
  | zero => rfl
  | succ m ih => simp [List.replicate_succ, ih]

theorem zero_row_data (n : Nat) :
    (String.join ((List.replicate n (0 : Nat)).map (fun c => toString c))).data
      = List.replicate n '0' := by
  rw [List.map_replicate, join_data, List.map_replicate]
  exact flatten_replicate_single n '0'

/-- C9: a freshly sized grid is all dead and renders as all-zero text:
a single run of `extent` zero characters in 1-D, and `extent`
newline-separated lines of `extent` zero characters each in 2-D. -/
theorem fresh_grid_dead_and_render (n : Nat) (hn : 0 < n) :
    mkUniverse 1 (some ⟨some n⟩) none
        = .ok ⟨1, .obj ⟨some n⟩, .d1 (List.replicate n 0)⟩
    ∧ (⟨1, .obj ⟨some n⟩, .d1 (List.replicate n 0)⟩ : Universe).render.data
        = List.replicate n '0'
    ∧ mkUniverse 2 (some ⟨some n⟩) none
        = .ok ⟨2, .obj ⟨some n⟩, .d2 (List.replicate n (List.replicate n 0))⟩
    ∧ (⟨2, .obj ⟨some n⟩, .d2 (List.replicate n (List.replicate n 0))⟩ : Universe).render.data
        = List.intercalate ['\n'] (List.replicate n (List.replicate n '0')) := by
  refine ⟨rfl, ?_, rfl, ?_⟩
  · show (String.join ((List.replicate n (0 : Nat)).map (fun c => toString c))).data = _
    exact zero_row_data n
  · show (pyJoin "\n" ((List.replicate n (List.replicate n (0 : Nat))).map
      (fun row => String.join (row.map (fun c => toString c))))).data = _
    rw [List.map_replicate, pyJoin_data, List.map_replicate, zero_row_data n]

/-- Witness for `fresh_grid_dead_and_render` at extent 2. -/
theorem fresh_grid_dead_and_render_witness :
    (⟨2, .obj ⟨some 2⟩, .d2 (List.replicate 2 (List.replicate 2 0))⟩ : Universe).render.data
      = List.intercalate ['\n'] (List.replicate 2 (List.replicate 2 '0')) :=
  (fresh_grid_dead_and_render 2 (by decide)).2.2.2

/-! ### construction from an initial-state array (C10) -/

/-- C10: no universe is ever constructed from an initial-state array.
`__check_initial` evaluates `np.all(initial.shape == size)` with a tuple
on the left and a plain int (`initial.shape[0]`) on the right; the
comparison is always `False`, so construction raises `ValueError` for
every rank-matching initial array — even the trivially square `[0]` —
and the claim's scenario (`evolve` on such a grid) is unreachable.  The
mechanism the claim describes is nevertheless present in the code: on a
universe holding the bare int the constructor would have stored in
`_size`, `apply` fails reading `self._size.size` with `AttributeError`
after the rule-rank validation, leaving the cells untouched. -/
theorem from_initial_never_constructs :
    mkUniverse 1 none (some (.d1 [0]))
        = .error "Initial universe must have the same size across all dimensions"
    ∧ (∀ (dims : Nat) (ini : NDArray), ∃ e, mkUniverse dims none (some ini) = .error e)
    ∧ (⟨1, .raw 1, .d1 [0]⟩ : Universe).applyM [⟨.d1 [0], [0], 1⟩]
        = (⟨1, .raw 1, .d1 [0]⟩, some "AttributeError") := by
  refine ⟨rfl, ?_, rfl⟩
  intro dims ini
  unfold mkUniverse
  cases hcd : checkDimensions dims with
  | error e =>
    exact ⟨e, rfl⟩
  | ok w =>
    dsimp only
    unfold checkInitial
    by_cases hr : ini.rank ≠ dims
    · rw [if_pos hr]
      exact ⟨_, rfl⟩
    · rw [if_neg hr]
      exact ⟨_, rfl⟩

end Pyxelate
